import Mathlib

/-!
Verification of the configuration templating and resource install/verify
engine of `config-examples`.

Go strings are modelled as `List Char` (the claims only involve character
content, never byte-level/UTF-8 behaviour).  Go `map[string]interface{}`
values are modelled as association lists with first-match lookup and
replace-or-append assignment, which realises exactly the at-most-one-binding
semantics of a Go map.  Go's in-place mutation is modelled by returning the
updated structure.  Fallible Go functions returning `error` are modelled
with `Except`.
-/

namespace ConfigSpec

/-- Go string, modelled as its character sequence. -/
abbrev Str := List Char

/-- White-space test of Go's `unicode.IsSpace` (the Unicode `White_Space`
property), used by `strings.TrimSpace`. -/
def goIsSpace (c : Char) : Bool :=
  c = ' ' || c = '\t' || c = '\n' || c = (Char.ofNat 11) || c = (Char.ofNat 12) ||
  c = '\r' || c = (Char.ofNat 0x85) || c = (Char.ofNat 0xA0) ||
  c = (Char.ofNat 0x1680) ||
  (0x2000 ≤ c.toNat && c.toNat ≤ 0x200A) ||
  c = (Char.ofNat 0x2028) || c = (Char.ofNat 0x2029) ||
  c = (Char.ofNat 0x202F) || c = (Char.ofNat 0x205F) || c = (Char.ofNat 0x3000)

/-- Go `strings.TrimSpace`: drop white-space from both ends. -/
def goTrimSpace (s : Str) : Str :=
  ((s.dropWhile goIsSpace).reverse.dropWhile goIsSpace).reverse

/-- Go `strings.Split(s, sep)` for a single-character separator.
Always returns at least one piece. -/
def splitOnChar (sep : Char) : Str → List Str
  | [] => [[]]
  | c :: rest =>
    if c = sep then [] :: splitOnChar sep rest
    else
      match splitOnChar sep rest with
      | [] => [[c]]
      | x :: xs => (c :: x) :: xs

/-- Go `strings.SplitN(s, sep, 2)` for a single-character separator:
split at the first occurrence only. -/
def goSplitN2 (sep : Char) : Str → List Str
  | [] => [[]]
  | c :: rest =>
    if c = sep then [[], rest]
    else
      match goSplitN2 sep rest with
      | [] => [[c]]
      | x :: xs => (c :: x) :: xs

/-- Go `strings.Join(lines, "\n")`. -/
def joinLines : List Str → Str
  | [] => []
  | [l] => l
  | l :: rest => l ++ '\n' :: joinLines rest

/-- Go `strings.HasPrefix(line, "#")`. -/
def hasLeadingHash : Str → Bool
  | '#' :: _ => true
  | _ => false

/-- Word character of Go's regexp `\w` class: `[0-9A-Za-z_]`. -/
def isWordChar (c : Char) : Bool :=
  c.isAlpha || c.isDigit || c = '_'

/-- Dynamic value of a parsed YAML document, the model of Go's
`interface{}` as produced by `yaml.Unmarshal` into `map[string]interface{}`. -/
inductive Value where
  | str (s : Str)
  | intV (n : Int)
  | boolV (b : Bool)
  | null
  | map (entries : List (Str × Value))
  | seq (items : List Value)

instance : Inhabited Value := ⟨Value.null⟩

/-- Model of Go `map[string]interface{}`: association list, at most one
binding per key maintained by `mapSet`. -/
abbrev GoMap := List (Str × Value)

/-- Go map read `m[k]` (first matching binding). -/
def mapGet (m : GoMap) (k : Str) : Option Value :=
  match m with
  | [] => none
  | (k2, v) :: rest => if k2 = k then some v else mapGet rest k

/-- Go map assignment `m[k] = v`: replace the existing binding or append. -/
def mapSet (m : GoMap) (k : Str) (v : Value) : GoMap :=
  match m with
  | [] => [(k, v)]
  | (k2, w) :: rest => if k2 = k then (k, v) :: rest else (k2, w) :: mapSet rest k v

/-- Go `map[string]string` read. -/
def strMapGet (m : List (Str × Str)) (k : Str) : Option Str :=
  match m with
  | [] => none
  | (k2, v) :: rest => if k2 = k then some v else strMapGet rest k

/-- Go `map[string]string` assignment. -/
def strMapSet (m : List (Str × Str)) (k : Str) (v : Str) : List (Str × Str) :=
  match m with
  | [] => [(k, v)]
  | (k2, w) :: rest => if k2 = k then (k, v) :: rest else (k2, w) :: strMapSet rest k v

/-- Read-back observation: follow a path of keys through nested mappings
(`some v` when every intermediate step is a mapping containing the key). -/
def getPathV (v : Value) : List Str → Option Value
  | [] => some v
  | k :: rest =>
    match v with
    | .map m =>
      match mapGet m k with
      | some v2 => getPathV v2 rest
      | none => none
    | _ => none

/-- Mapping test used by `updateNestedMap`'s type assertion
`current.(map[string]interface{})`. -/
def isMapV : Value → Bool
  | .map _ => true
  | _ => false

/-- Embedding of `updateNestedMap` (src/unnamed/part_006:332-361): descend
along the path; at the leaf store the raw string; at a non-leaf segment an
absent or non-mapping value is replaced by a fresh empty mapping. -/
def updateNestedMap (m : GoMap) (path : List Str) (value : Str) : Except Str GoMap :=
  match path with
  | [] => .error "path cannot be empty".data
  | [key] => .ok (mapSet m key (.str value))
  | key :: rest =>
    let nextMap : GoMap :=
      match mapGet m key with
      | some (.map mm) => mm
      | _ => []
    match updateNestedMap nextMap rest value with
    | .ok mm => .ok (mapSet m key (.map mm))
    | .error e => .error e

/-- Embedding of `UpdateConfig` (src/unnamed/part_006:314-330): split the
combined argument at the first `=`, trim both sides, split the path on dots
and delegate to `updateNestedMap`.  (The `pathParts = []` test mirrors the
source's dead `len(pathParts) == 0` check: `strings.Split` never returns an
empty slice.) -/
def UpdateConfig (data : GoMap) (pathValue : Str) : Except Str GoMap :=
  match goSplitN2 '=' pathValue with
  | [p, v] =>
    let path := goTrimSpace p
    let value := goTrimSpace v
    let pathParts := splitOnChar '.' path
    if pathParts = [] then .error "path cannot be empty".data
    else updateNestedMap data pathParts value
  | _ => .error ("invalid path=value format: ".data ++ pathValue)

/-- Error raised by `LoadConfFile`, carrying the 1-based line number of the
offending line as the source's `fmt.Errorf` messages do. -/
inductive ConfError where
  | invalidFormat (lineNo : Nat) (line : Str)
  | emptyKey (lineNo : Nat)
deriving DecidableEq

/-- Loop body of `LoadConfFile` (src/unnamed/part_006:453-472): `i` is the
0-based index of the first line of `ls` in the file, `acc` the map built so
far. -/
def loadConfLines (ls : List Str) (i : Nat) (acc : List (Str × Str)) :
    Except ConfError (List (Str × Str)) :=
  match ls with
  | [] => .ok acc
  | l :: rest =>
    let line := goTrimSpace l
    if line = [] || hasLeadingHash line then loadConfLines rest (i + 1) acc
    else
      match goSplitN2 '=' line with
      | [k0, v0] =>
        let key := goTrimSpace k0
        let value := goTrimSpace v0
        if key = [] then .error (.emptyKey (i + 1))
        else loadConfLines rest (i + 1) (strMapSet acc key value)
      | _ => .error (.invalidFormat (i + 1) line)

/-- Embedding of `LoadConfFile` (src/unnamed/part_006:444-475) applied to the
file content (the `os.ReadFile` step is outside the model): split into lines
and run the parsing loop on an empty map. -/
def LoadConfFile (data : Str) : Except ConfError (List (Str × Str)) :=
  loadConfLines (splitOnChar '\n' data) 0 []

/-- Runtime context of template processing (src/unnamed/part_006:288-292). -/
structure RuntimeContext where
  Namespace : Str
  InstanceName : Str

/-- Replacement applied by `replaceRuntimePlaceholdersInString` to one match
of the regexp; `w` is the identifier between the double braces (matching the
source's `strings.Trim(match, "\x7b\x7d")`, which on a match of this shape
yields exactly the identifier).  Unknown identifiers return the match
unchanged. -/
def rtSubst (ctx : RuntimeContext) (w : Str) : Str :=
  if w = "NAMESPACE".data then ctx.Namespace
  else if w = "INSTANCE_NAME".data then ctx.InstanceName
  else '{' :: '{' :: (w ++ ['}', '}'])

/-- Scanner realising `regexp.ReplaceAllStringFunc` for the pattern
double-brace, one-or-more word characters, double-brace: leftmost-first,
non-overlapping, replacements not rescanned.  A failed match at a brace pair
emits one brace and resumes at the second brace, exactly as the regexp
engine advances by one position. -/
def scanRT (ctx : RuntimeContext) : Str → Str
  | '{' :: '{' :: rest =>
    let w := rest.takeWhile isWordChar
    if w = [] then '{' :: scanRT ctx ('{' :: rest)
    else
      match h : rest.drop w.length with
      | '}' :: '}' :: rest2 => rtSubst ctx w ++ scanRT ctx rest2
      | _ => '{' :: scanRT ctx ('{' :: rest)
  | c :: rest => c :: scanRT ctx rest
  | [] => []
termination_by s => s.length
decreasing_by
  all_goals simp_wf
  have h2 : (rest.drop w.length).length = rest2.length + 2 := by rw [h]; simp
  have h3 : (rest.drop w.length).length = rest.length - w.length := by simp
  omega

/-- Embedding of `replaceRuntimePlaceholdersInString`
(src/unnamed/part_006:589-609). -/
def replaceRuntimePlaceholdersInString (content : Str) (ctx : Option RuntimeContext) : Str :=
  match ctx with
  | none => content
  | some c => scanRT c content

/-- Embedding of `replaceRuntimePlaceholdersInMap`
(src/unnamed/part_006:613-637): build a new map whose every value has the
same substitution applied. -/
def replaceRuntimePlaceholdersInMap (values : List (Str × Str))
    (ctx : Option RuntimeContext) : List (Str × Str) :=
  match ctx with
  | none => values
  | some c => values.map (fun kv => (kv.1, scanRT c kv.2))

/-- Reserved sentinel placeholder of the structural phase
(src/unnamed/part_006:521). -/
def placeholderSentinel : Str := "https://your-oidc-issuer-url".data

mutual

/-- Embedding of `replaceTemplatePlaceholders` (src/unnamed/part_006:643-663)
on one dynamic value: recurse through mappings and sequences; a map entry
whose value is a string equal to the placeholder is replaced by the overlay
value under the entry's own key when present, and left in place otherwise.
(Recursing into any other string is the source's default no-op case, spelled
out here on the string branch.) -/
def replaceTemplatePlaceholders (ph : Str) (conf : List (Str × Str)) : Value → Value
  | .map m => .map (replaceTPEntries ph conf m)
  | .seq l => .seq (replaceTPList ph conf l)
  | v => v

/-- Entry-wise walk of `replaceTemplatePlaceholders` over a mapping. -/
def replaceTPEntries (ph : Str) (conf : List (Str × Str)) :
    List (Str × Value) → List (Str × Value)
  | [] => []
  | (k, .str s) :: rest =>
    (if s = ph then
      match strMapGet conf k with
      | some r => (k, Value.str r)
      | none => (k, Value.str s)
     else (k, Value.str s)) :: replaceTPEntries ph conf rest
  | (k, v) :: rest => (k, replaceTemplatePlaceholders ph conf v) :: replaceTPEntries ph conf rest

/-- Element-wise walk of `replaceTemplatePlaceholders` over a sequence. -/
def replaceTPList (ph : Str) (conf : List (Str × Str)) : List Value → List Value
  | [] => []
  | v :: rest => replaceTemplatePlaceholders ph conf v :: replaceTPList ph conf rest

end

/-- Loop of `splitYAMLDocuments` (src/unnamed/part_006:552-576): walk the
lines, cutting a document at every line that trims to `---`; the final
document is flushed when the last line is reached (the separator branch
`continue`s before that check, as in the source). -/
def splitLoop : List Str → List Str → List Str
  | [], _ => []
  | line :: rest, currentDoc =>
    if goTrimSpace line = "---".data then
      (if currentDoc ≠ [] ∧ goTrimSpace (joinLines currentDoc) ≠ [] then
        [joinLines currentDoc]
       else []) ++ splitLoop rest []
    else
      let cur := currentDoc ++ [line]
      if rest = [] then
        (if goTrimSpace (joinLines cur) ≠ [] then [joinLines cur] else [])
      else splitLoop rest cur

/-- Embedding of `splitYAMLDocuments` (src/unnamed/part_006:545-584). -/
def splitYAMLDocuments (content : Str) : List Str :=
  let documents := splitLoop (splitOnChar '\n' content) []
  if documents = [] then [content] else documents

/-- Abstract YAML codec standing for the external `gopkg.in/yaml.v3`
collaborator: `parse` models `yaml.Unmarshal` into `map[string]interface{}`
(`none` on malformed input), `marshal` models `yaml.Marshal`. -/
structure YamlCodec where
  parse : Str → Option GoMap
  marshal : GoMap → Str

/-- Document loop of `ProcessTemplate` (src/unnamed/part_006:508-530): skip
documents that trim to nothing, fail on the first unparsable document naming
its 1-based index, otherwise substitute the sentinel placeholders from the
overlay and re-serialize. -/
def processDocs (codec : YamlCodec) (conf : List (Str × Str)) :
    List Str → Nat → List Str → Except (Nat × Str) (List Str)
  | [], _, acc => .ok acc
  | d :: rest, i, acc =>
    if goTrimSpace d = [] then processDocs codec conf rest (i + 1) acc
    else
      match codec.parse d with
      | none => .error (i + 1, d)
      | some m =>
        let m2 := replaceTPEntries placeholderSentinel conf m
        processDocs codec conf rest (i + 1) (acc ++ [codec.marshal m2])

/-- Embedding of the pure core of `ProcessTemplate`
(src/unnamed/part_006:489-530), taking the template text and the already
loaded overlay map (the `os.ReadFile`, `LoadConfFile`-from-disk and
`os.WriteFile` steps are outside the model; the result is the list
`processedDocs` that the source joins with a separator and writes out):
first substitute runtime placeholders in the overlay values and in the raw
template text, then split into documents and process each one. -/
def processTemplateCore (codec : YamlCodec) (templateData : Str)
    (confValues0 : List (Str × Str)) (ctx : Option RuntimeContext) :
    Except (Nat × Str) (List Str) :=
  let confValues := replaceRuntimePlaceholdersInMap confValues0 ctx
  let templateDataStr := replaceRuntimePlaceholdersInString templateData ctx
  let documents := splitYAMLDocuments templateDataStr
  processDocs codec confValues documents 0 []

/-- Embedding of `unstructured.NestedFieldNoCopy`: walk the named fields
through nested mappings; `none` collapses the source's `found == false` and
`err != nil` outcomes, which `IsReady` treats identically. -/
def nestedFieldNoCopy (obj : Value) : List Str → Option Value
  | [] => some obj
  | f :: rest =>
    match obj with
    | .map m =>
      match mapGet m f with
      | some v => nestedFieldNoCopy v rest
      | none => none
    | _ => none

/-- Embedding of `unstructured.NestedSlice`: the nested field must exist and
be a sequence. -/
def nestedSlice (obj : Value) (fields : List Str) : Option (List Value) :=
  match nestedFieldNoCopy obj fields with
  | some (.seq l) => some l
  | _ => none

/-- Condition loop of `IsReady` (src/pkg/verifier/securesign.go:57-70):
entries that are not mappings or whose `type` is not the string `Ready` are
skipped; the first `Ready`-typed entry decides the answer by its `status`
field and the loop returns there. -/
def scanConditions : List Value → Bool
  | [] => false
  | cond :: rest =>
    match cond with
    | .map condMap =>
      match mapGet condMap "type".data with
      | some (.str t) =>
        if t = "Ready".data then
          match mapGet condMap "status".data with
          | some (.str s) => s = "True".data
          | _ => false
        else scanConditions rest
      | _ => scanConditions rest
    | _ => scanConditions rest

/-- Embedding of `IsReady` (src/pkg/verifier/securesign.go:47-73); the
snapshot is `none` for a nil object. -/
def IsReady (obj : Option Value) : Bool :=
  match obj with
  | none => false
  | some o =>
    match nestedSlice o ["status".data, "conditions".data] with
    | none => false
    | some conditions => scanConditions conditions

/-- Field test on a condition mapping: the field `f` holds exactly the
string `v`. -/
def condFieldIs (m : GoMap) (f : Str) (v : Str) : Bool :=
  match mapGet m f with
  | some (.str s) => s = v
  | _ => false

/-- Entry test on one condition value: a mapping whose `type` field is the
string `Ready`. -/
def isReadyTyped (c : Value) : Bool :=
  match c with
  | .map m => condFieldIs m "type".data "Ready".data
  | _ => false

/-- Claim-side entry test, written from the spec's words: a mapping whose
`type` field is the string `Ready` and whose `status` field is the string
`True`. -/
def specReadyEntry (c : Value) : Bool :=
  match c with
  | .map m => condFieldIs m "type".data "Ready".data &&
      condFieldIs m "status".data "True".data
  | _ => false

/-- Claim-side readiness predicate, written from the spec's words: the
conditions sequence contains an entry whose `type` field is `Ready` and
whose `status` field is `True`. -/
def specContainsReadyTrue (conds : List Value) : Bool :=
  conds.any specReadyEntry

/-- Number of conditions entries whose `type` field is the string `Ready` —
the entries at which the `IsReady` loop stops. -/
def countReady (conds : List Value) : Nat :=
  (conds.filter isReadyTyped).length

/-- Embedding of `unstructured` string accessors (`GetNamespace`, `GetName`,
`GetResourceVersion`): nested string field with empty-string default. -/
def getNestedString (o : Value) (fields : List Str) : Str :=
  match nestedFieldNoCopy o fields with
  | some (.str s) => s
  | _ => []

/-- Embedding of `unstructured.SetResourceVersion`: set
`metadata.resourceVersion`, creating the `metadata` mapping when absent
(a pre-existing non-mapping `metadata` cannot occur for the well-formed
objects `InstallConfig` handles and is replaced here). -/
def setResourceVersion (o : Value) (rv : Str) : Value :=
  match o with
  | .map m =>
    let meta : GoMap :=
      match mapGet m "metadata".data with
      | some (.map mm) => mm
      | _ => []
    .map (mapSet m "metadata".data
      (.map (mapSet meta "resourceVersion".data (.str rv))))
  | v => v

/-- Lookup key of a cluster object: namespace and name, as
`client.ObjectKey{Namespace: obj.GetNamespace(), Name: obj.GetName()}`. -/
def keyOfObj (o : Value) : Str × Str :=
  (getNestedString o ["metadata".data, "namespace".data],
   getNestedString o ["metadata".data, "name".data])

/-- Cluster call observed during `InstallConfig`. -/
inductive ClusterOp where
  | create (o : Value)
  | update (o : Value)

/-- Fake cluster client state (the spec verifies installer behaviour
"via a fake cluster client"): a namespace+name-keyed object store and a
counter supplying fresh resource versions.  `Get` never fails transiently
here, so the source's third (lookup-error) branch is unreachable. -/
structure FakeCluster where
  store : List ((Str × Str) × Value)
  nextRV : Nat

/-- Fake `client.Get`: `none` is the not-found outcome. -/
def clusterGet (c : FakeCluster) (key : Str × Str) : Option Value :=
  match c.store.find? (fun e => e.1 = key) with
  | some e => some e.2
  | none => none

/-- Store assignment of the fake cluster. -/
def storeSet (s : List ((Str × Str) × Value)) (key : Str × Str) (v : Value) :
    List ((Str × Str) × Value) :=
  match s with
  | [] => [(key, v)]
  | (k2, w) :: rest => if k2 = key then (key, v) :: rest else (k2, w) :: storeSet rest key v

/-- Embedding of `InstallConfig` (src/unnamed/part_002:15-51) against the
fake cluster.  The `ToYAML`/`yaml.Unmarshal` round trip through which the
source turns `cfg.Data` into an `unstructured` object is modelled as the
identity on the dynamic value.  Not found: create (the fake client assigns a
fresh resource version).  Found: copy the existing object's resource version
onto the new object, then update.  The returned trace lists the cluster
calls made. -/
def InstallConfig (c : FakeCluster) (cfgData : GoMap) : List ClusterOp × FakeCluster :=
  let obj : Value := .map cfgData
  let key := keyOfObj obj
  match clusterGet c key with
  | none =>
    let stored := setResourceVersion obj (Nat.toDigits 10 c.nextRV)
    ([.create obj], { store := storeSet c.store key stored, nextRV := c.nextRV + 1 })
  | some existing =>
    let obj2 := setResourceVersion obj
      (getNestedString existing ["metadata".data, "resourceVersion".data])
    ([.update obj2],
     { store := storeSet c.store key (setResourceVersion obj2 (Nat.toDigits 10 c.nextRV)),
       nextRV := c.nextRV + 1 })

mutual

/-- Frame-condition guard for `replaceTemplatePlaceholders`: `true` when the
value contains no mapping entry that the substitution would rewrite (a
string value equal to the placeholder under a key present in the overlay). -/
def noHitV (ph : Str) (conf : List (Str × Str)) : Value → Bool
  | .map m => noHitEntries ph conf m
  | .seq l => noHitList ph conf l
  | _ => true

/-- Entry-wise frame-condition guard. -/
def noHitEntries (ph : Str) (conf : List (Str × Str)) : List (Str × Value) → Bool
  | [] => true
  | (k, .str s) :: rest =>
    (if s = ph then (strMapGet conf k).isNone else true) && noHitEntries ph conf rest
  | (_, v) :: rest => noHitV ph conf v && noHitEntries ph conf rest

/-- Element-wise frame-condition guard. -/
def noHitList (ph : Str) (conf : List (Str × Str)) : List Value → Bool
  | [] => true
  | v :: rest => noHitV ph conf v && noHitList ph conf rest

end

/-- Observation of what `replaceTemplatePlaceholders` does to one mapping
entry `(k, v)`: a string equal to the placeholder is looked up in the
overlay by `k`, any other value is processed recursively. -/
def tpEntryResult (ph : Str) (conf : List (Str × Str)) (k : Str) : Value → Value
  | .str s =>
    if s = ph then
      match strMapGet conf k with
      | some r => Value.str r
      | none => Value.str s
    else Value.str s
  | v => replaceTemplatePlaceholders ph conf v

/-- Claim-side line classification for the conf loader: blank after
trimming, or a comment. -/
def isSkippableLine (l : Str) : Bool :=
  goTrimSpace l = [] || hasLeadingHash (goTrimSpace l)

/-- Claim-side test that a conf line parses: skippable, or `key=value` with
a non-empty trimmed key. -/
def isGoodLine (l : Str) : Bool :=
  isSkippableLine l ||
  (match goSplitN2 '=' (goTrimSpace l) with
   | [k0, _] => !(goTrimSpace k0).isEmpty
   | _ => false)

/-- Claim-side extraction of the `key=value` pairs of the parseable lines,
in file order, comments and blanks skipped. -/
def confLinePairs : List Str → List (Str × Str)
  | [] => []
  | l :: rest =>
    if isSkippableLine l then confLinePairs rest
    else
      match goSplitN2 '=' (goTrimSpace l) with
      | [k0, v0] => (goTrimSpace k0, goTrimSpace v0) :: confLinePairs rest
      | _ => confLinePairs rest

/-- Insert a list of pairs into a string map in order (later bindings of a
repeated key overwrite earlier ones, as Go map assignment does). -/
def insertAllConf (acc : List (Str × Str)) : List (Str × Str) → List (Str × Str)
  | [] => acc
  | (k, v) :: rest => insertAllConf (strMapSet acc k v) rest

/-- Claim-side decomposition of an arbitrary template text into its
placeholder tokens and the text between them: `token w` stands for an
occurrence of the identifier `w` between double braces, `text a` for a
stretch of template text containing no opening brace (so the tokens of the
decomposition are exactly the pattern occurrences in the rendered text). -/
inductive RTChunk where
  | text (a : Str)
  | token (w : Str)

/-- The template text denoted by a decomposition. -/
def renderChunks : List RTChunk → Str
  | [] => []
  | .text a :: rest => a ++ renderChunks rest
  | .token w :: rest => '{' :: '{' :: (w ++ '}' :: '}' :: renderChunks rest)

/-- The claim-side expected output: every token occurrence substituted by
`rtSubst` (its identifier's runtime value, or the token itself when the
identifier is unknown), all other text untouched. -/
def substChunks (ctx : RuntimeContext) : List RTChunk → Str
  | [] => []
  | .text a :: rest => a ++ substChunks ctx rest
  | .token w :: rest => rtSubst ctx w ++ substChunks ctx rest

/-- Well-formedness of one chunk: text carries no opening brace, a token
identifier is a non-empty run of word characters. -/
def chunkOK : RTChunk → Bool
  | .text a => a.all (fun c => c ≠ '{')
  | .token w => !w.isEmpty && w.all isWordChar

end ConfigSpec

namespace ConfigSpec

/-- Round trip of `updateNestedMap` on a fresh empty mapping: writing along a
non-empty path and reading back along the same segments recovers the value. -/
theorem updateNestedMap_fresh (v : Str) :
    ∀ ps : List Str, ps ≠ [] →
      ∃ m2, updateNestedMap [] ps v = .ok m2 ∧ getPathV (.map m2) ps = some (.str v)
  | [], h => absurd rfl h
  | [k], _ => ⟨[(k, .str v)], by simp [updateNestedMap, mapSet, getPathV, mapGet]⟩
  | k :: k2 :: rest, _ => by
    obtain ⟨m2, hm2, hget⟩ := updateNestedMap_fresh v (k2 :: rest) (by simp)
    refine ⟨[(k, .map m2)], ?_, ?_⟩
    · simp only [updateNestedMap, mapGet]
      rw [hm2]
      simp [mapSet]
    · simpa [getPathV, mapGet] using hget

/-- Go `SplitN(s, sep, 2)` on a separator-free string returns the whole
string as the only piece. -/
theorem goSplitN2_no_sep (sep : Char) : ∀ s : Str, sep ∉ s → goSplitN2 sep s = [s]
  | [], _ => rfl
  | c :: rest, h => by
    have hc : ¬ c = sep := fun e => h (by simp [e])
    have hr := goSplitN2_no_sep sep rest (fun hm => h (List.mem_cons_of_mem c hm))
    simp [goSplitN2, hc, hr]

/-- Go `SplitN(s, sep, 2)` splits at the first separator occurrence. -/
theorem goSplitN2_first (sep : Char) (v : Str) : ∀ p : Str, sep ∉ p →
    goSplitN2 sep (p ++ sep :: v) = [p, v]
  | [], _ => by simp [goSplitN2]
  | c :: p, h => by
    have hc : ¬ c = sep := fun e => h (by simp [e])
    have hr := goSplitN2_first sep v p (fun hm => h (List.mem_cons_of_mem c hm))
    simp [goSplitN2, hc, hr]

/-- Go `strings.Split` never returns an empty slice. -/
theorem splitOnChar_ne_nil (sep : Char) : ∀ s : Str, splitOnChar sep s ≠ []
  | [] => by simp [splitOnChar]
  | c :: rest => by
    simp only [splitOnChar]
    split
    · simp
    · split <;> simp

/-- C1 (amended): for every dot-path `p` (no surrounding white-space, no `=`)
and every value `v`, applying `UpdateConfig` with argument `p=v` to a fresh
empty document and reading back along the path segments yields the
white-space-trimmed `v` (exactly `v` whenever `v` carries no surrounding
white-space). -/
theorem updateConfig_roundtrip (p v : Str) (hne : p ≠ []) (htrim : goTrimSpace p = p)
    (heq : '=' ∉ p) :
    ∃ m2, UpdateConfig [] (p ++ '=' :: v) = .ok m2 ∧
      getPathV (.map m2) (splitOnChar '.' p) = some (.str (goTrimSpace v)) := by
  obtain ⟨m2, hok, hget⟩ := updateNestedMap_fresh (goTrimSpace v) (splitOnChar '.' p)
    (splitOnChar_ne_nil '.' p)
  refine ⟨m2, ?_, hget⟩
  unfold UpdateConfig
  rw [goSplitN2_first '=' v p heq]
  simp only [htrim]
  rw [if_neg (splitOnChar_ne_nil '.' p)]
  exact hok

/-- C1 as frozen is false at `p = "a"`, `v = " x "`: the source trims the
value, so the read-back yields `"x"`, not `" x "`. -/
theorem updateConfig_roundtrip_counterexample :
    UpdateConfig [] "a= x ".data = .ok [("a".data, Value.str "x".data)] ∧
    "x".data ≠ " x ".data :=
  ⟨rfl, by decide⟩

/-- Witness for `updateConfig_roundtrip` at `p = "spec.x"`, `v = " hello "`. -/
theorem updateConfig_roundtrip_witness :
    ∃ m2, UpdateConfig [] ("spec.x".data ++ '=' :: " hello ".data) = .ok m2 ∧
      getPathV (.map m2) (splitOnChar '.' "spec.x".data)
        = some (.str (goTrimSpace " hello ".data)) :=
  updateConfig_roundtrip "spec.x".data " hello ".data (by decide) (by decide) (by decide)

/-- C5: at a non-leaf path segment whose key is absent or holds a
non-mapping value, `updateNestedMap` silently installs a fresh mapping built
from the remaining path (first conjunct); in particular applying
`spec.a.b=value` where `spec.a` holds the string `leaf` discards the string
and yields the mapping `b: value` there (second conjunct). -/
theorem updateNestedMap_destructive_overwrite :
    (∀ (m : GoMap) (k : Str) (rest : List Str) (v : Str),
      rest ≠ [] →
      (mapGet m k = none ∨ ∃ w, mapGet m k = some w ∧ isMapV w = false) →
      ∃ m2, updateNestedMap [] rest v = .ok m2 ∧
        updateNestedMap m (k :: rest) v = .ok (mapSet m k (.map m2))) ∧
    UpdateConfig [("spec".data, Value.map [("a".data, Value.str "leaf".data)])]
      "spec.a.b=value".data
    = .ok [("spec".data,
        Value.map [("a".data, Value.map [("b".data, Value.str "value".data)])])] := by
  constructor
  · intro m k rest v hrest hget
    obtain ⟨r, rs, rfl⟩ : ∃ r rs, rest = r :: rs := by
      cases rest with
      | nil => exact absurd rfl hrest
      | cons r rs => exact ⟨r, rs, rfl⟩
    have hnext : (match mapGet m k with
        | some (.map mm) => mm
        | _ => ([] : GoMap)) = [] := by
      rcases hget with h | ⟨w, hw, hmap⟩
      · rw [h]
      · rw [hw]; cases w <;> simp_all [isMapV]
    obtain ⟨m2, hm2, _⟩ := updateNestedMap_fresh v (r :: rs) (by simp)
    refine ⟨m2, hm2, ?_⟩
    simp only [updateNestedMap]
    rw [hnext, hm2]
  · rfl

/-- Witness for `updateNestedMap_destructive_overwrite` where key `a` holds
the string `leaf`. -/
theorem updateNestedMap_destructive_overwrite_witness :
    ∃ m2, updateNestedMap [] ["b".data] "value".data = .ok m2 ∧
      updateNestedMap [("a".data, Value.str "leaf".data)] ["a".data, "b".data] "value".data
        = .ok (mapSet [("a".data, Value.str "leaf".data)] "a".data (.map m2)) :=
  updateNestedMap_destructive_overwrite.1 [("a".data, Value.str "leaf".data)]
    "a".data ["b".data] "value".data (by simp)
    (Or.inr ⟨Value.str "leaf".data, rfl, rfl⟩)

/-- C7: an argument without `=` is rejected with an error and no assignment
is performed (first conjunct); the empty-path half of the claim is refuted
by the second conjunct, proved separately as the code-bug evaluation: the
source's `len(pathParts) == 0` check is unreachable because `strings.Split`
of the empty path yields one empty segment, so `=value` silently assigns the
empty key. -/
theorem updateConfig_invalid_argument :
    (∀ (data : GoMap) (s : Str), '=' ∉ s →
      UpdateConfig data s = .error ("invalid path=value format: ".data ++ s)) ∧
    UpdateConfig [] "=value".data = .ok [([], Value.str "value".data)] := by
  constructor
  · intro data s h
    unfold UpdateConfig
    rw [goSplitN2_no_sep '=' s h]
  · rfl

/-- Witness for `updateConfig_invalid_argument` on a separator-free
argument. -/
theorem updateConfig_invalid_argument_witness :
    UpdateConfig [] "no-separator".data
      = .error ("invalid path=value format: ".data ++ "no-separator".data) :=
  updateConfig_invalid_argument.1 [] "no-separator".data (by decide)

/-- Entries that are not `Ready`-typed cannot satisfy the claim-side entry
test. -/
theorem specReadyEntry_of_not_typed : ∀ c : Value,
    isReadyTyped c = false → specReadyEntry c = false := by
  intro c h
  cases c <;> simp_all [isReadyTyped, specReadyEntry]

/-- With no `Ready`-typed entry at all, the claim-side containment predicate
is false. -/
theorem countReady_zero_spec : ∀ conds : List Value,
    countReady conds = 0 → specContainsReadyTrue conds = false := by
  intro conds
  induction conds with
  | nil => intro _; rfl
  | cons c rest ih =>
    intro h
    have hsplit : isReadyTyped c = false ∧ countReady rest = 0 := by
      by_cases hc : isReadyTyped c = true
      · exact absurd h (by simp [countReady, List.filter_cons, hc])
      · refine ⟨by simpa using hc, ?_⟩
        simpa [countReady, List.filter_cons, hc] using h
    have hrest := ih hsplit.2
    simp [specContainsReadyTrue, List.any_cons, specReadyEntry_of_not_typed c hsplit.1]
    simpa [specContainsReadyTrue] using hrest

/-- On a mapping entry the `IsReady` loop either stops (when the `type`
field is the string `Ready`) and answers by the `status` field, or skips the
entry. -/
theorem scanConditions_cons_map (m : GoMap) (rest : List Value) :
    scanConditions (Value.map m :: rest) =
      if condFieldIs m "type".data "Ready".data then condFieldIs m "status".data "True".data
      else scanConditions rest := by
  cases hget : mapGet m "type".data with
  | none => simp [scanConditions, condFieldIs, hget]
  | some v =>
    cases v with
    | str t =>
      by_cases ht : t = "Ready".data
      · simp [scanConditions, condFieldIs, hget, ht]
      · simp [scanConditions, condFieldIs, hget, ht]
    | intV n => simp [scanConditions, condFieldIs, hget]
    | boolV b => simp [scanConditions, condFieldIs, hget]
    | null => simp [scanConditions, condFieldIs, hget]
    | map mm => simp [scanConditions, condFieldIs, hget]
    | seq l => simp [scanConditions, condFieldIs, hget]

/-- Entries that are not mappings are skipped by the `IsReady` loop. -/
theorem scanConditions_cons_other : ∀ (c : Value) (rest : List Value),
    isMapV c = false → scanConditions (c :: rest) = scanConditions rest := by
  intro c rest h
  cases c <;> simp_all [isMapV, scanConditions]

/-- The `IsReady` loop agrees with the claim-side containment predicate on
every conditions sequence with at most one `Ready`-typed entry. -/
theorem scanConditions_eq_spec : ∀ conds : List Value,
    countReady conds ≤ 1 → scanConditions conds = specContainsReadyTrue conds := by
  intro conds
  induction conds with
  | nil => intro _; rfl
  | cons c rest ih =>
    intro h
    by_cases hc : isReadyTyped c = true
    · obtain ⟨m, rfl⟩ : ∃ m, c = Value.map m := by
        cases c <;> simp_all [isReadyTyped]
      have htype : condFieldIs m "type".data "Ready".data = true := by
        simpa [isReadyTyped] using hc
      have hrest0 : countReady rest = 0 := by
        have h2 := h
        simp [countReady, List.filter_cons, hc] at h2
        simpa [countReady] using h2
      have hany : rest.any specReadyEntry = false := countReady_zero_spec rest hrest0
      rw [scanConditions_cons_map, if_pos htype]
      simp [specContainsReadyTrue, List.any_cons, specReadyEntry, htype, hany]
    · have hcount : countReady rest ≤ 1 := by
        have h2 := h
        simpa [countReady, List.filter_cons, hc] using h2
      have hrest := ih hcount
      have hskip : scanConditions (c :: rest) = scanConditions rest := by
        cases hm : c with
        | map m =>
          have htype : condFieldIs m "type".data "Ready".data = false := by
            have := hc
            rw [hm] at this
            simpa [isReadyTyped] using this
          rw [scanConditions_cons_map, if_neg (by simp [htype])]
        | str s => exact scanConditions_cons_other _ _ rfl
        | intV n => exact scanConditions_cons_other _ _ rfl
        | boolV b => exact scanConditions_cons_other _ _ rfl
        | null => exact scanConditions_cons_other _ _ rfl
        | seq l => exact scanConditions_cons_other _ _ rfl
      rw [hskip, hrest]
      simp [specContainsReadyTrue, List.any_cons,
        specReadyEntry_of_not_typed c (by simpa using hc)]

end ConfigSpec

namespace ConfigSpec

/-- C3 (amended): the `IsReady` loop stops at the first `Ready`-typed entry,
so the claimed containment iff holds on every snapshot whose conditions
sequence has at most one `Ready`-typed entry — the documented readiness
contract (first conjunct); a missing or malformed `status.conditions` yields
`false` (second and third conjuncts); the claim's concrete cases: no
`status` key → `false`, a lone `Progressing/True` condition → `false`, and
`Ready/True` alongside unrelated conditions → `true`. -/
theorem isReady_characterization :
    (∀ (o : Value) (conds : List Value),
      nestedSlice o ["status".data, "conditions".data] = some conds →
      countReady conds ≤ 1 →
      IsReady (some o) = specContainsReadyTrue conds) ∧
    IsReady none = false ∧
    (∀ o : Value, nestedSlice o ["status".data, "conditions".data] = none →
      IsReady (some o) = false) ∧
    IsReady (some (Value.map [("kind".data, Value.str "Securesign".data)])) = false ∧
    IsReady (some (Value.map [("status".data, Value.map [("conditions".data,
      Value.seq [Value.map [("type".data, Value.str "Progressing".data),
        ("status".data, Value.str "True".data)]])])])) = false ∧
    IsReady (some (Value.map [("status".data, Value.map [("conditions".data,
      Value.seq [Value.map [("type".data, Value.str "Available".data),
          ("status".data, Value.str "True".data)],
        Value.map [("type".data, Value.str "Ready".data),
          ("status".data, Value.str "True".data)],
        Value.map [("type".data, Value.str "Progressing".data),
          ("status".data, Value.str "False".data)]])])])) = true := by
  refine ⟨?_, rfl, ?_, rfl, rfl, rfl⟩
  · intro o conds hslice hcount
    simp only [IsReady, hslice]
    exact scanConditions_eq_spec conds hcount
  · intro o hslice
    simp [IsReady, hslice]

/-- C3 as frozen is false on a snapshot whose conditions list a
`Ready/False` entry before a `Ready/True` entry: the containment side holds
but `IsReady` stops at the first `Ready`-typed entry and answers `false`. -/
theorem isReady_counterexample :
    nestedSlice
      (Value.map [("status".data, Value.map [("conditions".data,
        Value.seq [Value.map [("type".data, Value.str "Ready".data),
            ("status".data, Value.str "False".data)],
          Value.map [("type".data, Value.str "Ready".data),
            ("status".data, Value.str "True".data)]])])])
      ["status".data, "conditions".data]
    = some [Value.map [("type".data, Value.str "Ready".data),
        ("status".data, Value.str "False".data)],
      Value.map [("type".data, Value.str "Ready".data),
        ("status".data, Value.str "True".data)]] ∧
    specContainsReadyTrue
      [Value.map [("type".data, Value.str "Ready".data),
        ("status".data, Value.str "False".data)],
      Value.map [("type".data, Value.str "Ready".data),
        ("status".data, Value.str "True".data)]] = true ∧
    IsReady (some (Value.map [("status".data, Value.map [("conditions".data,
      Value.seq [Value.map [("type".data, Value.str "Ready".data),
          ("status".data, Value.str "False".data)],
        Value.map [("type".data, Value.str "Ready".data),
          ("status".data, Value.str "True".data)]])])])) = false :=
  ⟨rfl, rfl, rfl⟩

/-- Witness for `isReady_characterization` on a snapshot with one
`Ready/True` condition. -/
theorem isReady_characterization_witness :
    IsReady (some (Value.map [("status".data, Value.map [("conditions".data,
      Value.seq [Value.map [("type".data, Value.str "Ready".data),
        ("status".data, Value.str "True".data)]])])]))
    = specContainsReadyTrue [Value.map [("type".data, Value.str "Ready".data),
        ("status".data, Value.str "True".data)]] :=
  isReady_characterization.1
    (Value.map [("status".data, Value.map [("conditions".data,
      Value.seq [Value.map [("type".data, Value.str "Ready".data),
        ("status".data, Value.str "True".data)]])])])
    [Value.map [("type".data, Value.str "Ready".data),
      ("status".data, Value.str "True".data)]]
    rfl (by decide)

end ConfigSpec

namespace ConfigSpec

/-- C4: applying the installer twice with the same document to an initially
empty fake cluster performs exactly one Create on the first run and exactly
one Update on the second (never two Creates), and the update-path object
carries the resource version read from the object stored by the first
run. -/
theorem installConfig_create_then_update (cfg : GoMap) :
    (InstallConfig { store := [], nextRV := 1 } cfg).1
      = [ClusterOp.create (Value.map cfg)] ∧
    ∃ stored,
      clusterGet (InstallConfig { store := [], nextRV := 1 } cfg).2
          (keyOfObj (Value.map cfg)) = some stored ∧
      (InstallConfig (InstallConfig { store := [], nextRV := 1 } cfg).2 cfg).1
        = [ClusterOp.update (setResourceVersion (Value.map cfg)
            (getNestedString stored ["metadata".data, "resourceVersion".data]))] := by
  have hget0 : clusterGet { store := [], nextRV := 1 } (keyOfObj (Value.map cfg)) = none := rfl
  have hfirst : InstallConfig { store := [], nextRV := 1 } cfg
      = ([ClusterOp.create (Value.map cfg)],
         { store := [(keyOfObj (Value.map cfg),
             setResourceVersion (Value.map cfg) (Nat.toDigits 10 1))],
           nextRV := 2 }) := by
    simp [InstallConfig, hget0, storeSet]
  refine ⟨by rw [hfirst], ?_⟩
  refine ⟨setResourceVersion (Value.map cfg) (Nat.toDigits 10 1), ?_, ?_⟩
  · rw [hfirst]
    simp [clusterGet, List.find?]
  · rw [hfirst]
    have hget1 : clusterGet
        { store := [(keyOfObj (Value.map cfg),
            setResourceVersion (Value.map cfg) (Nat.toDigits 10 1))],
          nextRV := 2 } (keyOfObj (Value.map cfg))
        = some (setResourceVersion (Value.map cfg) (Nat.toDigits 10 1)) := by
      simp [clusterGet, List.find?]
    simp [InstallConfig, hget1]

end ConfigSpec

namespace ConfigSpec

/-- Lookup in a substituted mapping: the substitution acts entry-wise, so
the binding found for `k` is the entry transform of the original binding. -/
theorem mapGet_replaceTPEntries (ph : Str) (conf : List (Str × Str)) :
    ∀ (m : List (Str × Value)) (k : Str),
      mapGet (replaceTPEntries ph conf m) k
        = Option.map (tpEntryResult ph conf k) (mapGet m k)
  | [], _ => rfl
  | (k2, v) :: rest, k => by
    have ih := mapGet_replaceTPEntries ph conf rest k
    cases v with
    | str s =>
      by_cases hs : s = ph
      · subst hs
        simp only [replaceTPEntries, if_pos rfl]
        cases hr : strMapGet conf k2 with
        | none =>
          by_cases hk : k2 = k
          · subst hk; simp [mapGet, tpEntryResult, hr]
          · simp [mapGet, hk, ih]
        | some r =>
          by_cases hk : k2 = k
          · subst hk; simp [mapGet, tpEntryResult, hr]
          · simp [mapGet, hk, ih]
      · simp only [replaceTPEntries, if_neg hs]
        by_cases hk : k2 = k
        · subst hk; simp [mapGet, tpEntryResult, if_neg hs]
        · simp [mapGet, hk, ih]
    | map mm =>
      by_cases hk : k2 = k
      · subst hk; simp [replaceTPEntries, mapGet, tpEntryResult]
      · simp [replaceTPEntries, mapGet, hk, ih]
    | seq l =>
      by_cases hk : k2 = k
      · subst hk; simp [replaceTPEntries, mapGet, tpEntryResult]
      · simp [replaceTPEntries, mapGet, hk, ih]
    | intV n =>
      by_cases hk : k2 = k
      · subst hk; simp [replaceTPEntries, mapGet, tpEntryResult]
      · simp [replaceTPEntries, mapGet, hk, ih]
    | boolV b =>
      by_cases hk : k2 = k
      · subst hk; simp [replaceTPEntries, mapGet, tpEntryResult]
      · simp [replaceTPEntries, mapGet, hk, ih]
    | null =>
      by_cases hk : k2 = k
      · subst hk; simp [replaceTPEntries, mapGet, tpEntryResult]
      · simp [replaceTPEntries, mapGet, hk, ih]

/-- A value that reads back as a mapping (possibly after more segments) is a
mapping. -/
theorem getPathV_map_shape : ∀ (ks : List Str) (v : Value) (mf : List (Str × Value)),
    getPathV v ks = some (.map mf) → ∃ m2, v = Value.map m2 := by
  intro ks v mf h
  cases ks with
  | nil =>
    cases v <;> simp [getPathV] at h
    exact ⟨_, by rw [h]⟩
  | cons k rest =>
    cases v with
    | map m => exact ⟨m, rfl⟩
    | str s => simp [getPathV] at h
    | intV n => simp [getPathV] at h
    | boolV b => simp [getPathV] at h
    | null => simp [getPathV] at h
    | seq l => simp [getPathV] at h

/-- Substitution commutes with reading a path that ends in a mapping: the
mapping found after substitution is the entry-wise substitution of the
original one. -/
theorem getPathV_replaceTP (ph : Str) (conf : List (Str × Str)) :
    ∀ (ks : List Str) (v : Value) (mf : List (Str × Value)),
      getPathV v ks = some (.map mf) →
      getPathV (replaceTemplatePlaceholders ph conf v) ks
        = some (.map (replaceTPEntries ph conf mf)) := by
  intro ks
  induction ks with
  | nil =>
    intro v mf h
    obtain ⟨m2, rfl⟩ := getPathV_map_shape [] v mf h
    simp [getPathV] at h
    subst h
    rfl
  | cons k rest ih =>
    intro v mf h
    obtain ⟨m2, rfl⟩ := getPathV_map_shape (k :: rest) v mf h
    simp only [getPathV] at h
    cases hget : mapGet m2 k with
    | none => rw [hget] at h; exact absurd h (by simp)
    | some v2 =>
      rw [hget] at h
      obtain ⟨m3, rfl⟩ := getPathV_map_shape rest v2 mf h
      have hstep := ih (Value.map m3) mf h
      simp only [replaceTemplatePlaceholders, getPathV,
        mapGet_replaceTPEntries ph conf m2 k, hget]
      simpa [tpEntryResult, replaceTemplatePlaceholders] using hstep

end ConfigSpec

namespace ConfigSpec

/-- Reading a one-segment extension of a path. -/
theorem getPathV_snoc : ∀ (ks : List Str) (v : Value) (k : Str) (mf : List (Str × Value)),
    getPathV v ks = some (.map mf) → getPathV v (ks ++ [k]) = mapGet mf k := by
  intro ks
  induction ks with
  | nil =>
    intro v k mf h
    simp [getPathV] at h
    subst h
    cases hget : mapGet mf k <;> simp [getPathV, hget]
  | cons k0 rest ih =>
    intro v k mf h
    obtain ⟨m2, rfl⟩ := getPathV_map_shape (k0 :: rest) v mf h
    simp only [getPathV] at h
    cases hget : mapGet m2 k0 with
    | none => rw [hget] at h; exact absurd h (by simp)
    | some v2 =>
      rw [hget] at h
      simp only [List.cons_append, getPathV, hget]
      exact ih v2 k mf h

/-- C2: in the structural phase, a string field equal to the sentinel
anywhere in the document tree is replaced by the overlay value under the
field's own key when such an entry exists, and keeps the sentinel (with no
error — the function is total) when it does not (first conjunct); the
claim's concrete instance: a document whose `spec.fulcio.certificate.commonName`
holds the sentinel, processed with overlay `commonName ↦ fulcio.example.com`,
ends with that path holding `fulcio.example.com` (second conjunct). -/
theorem replaceTemplatePlaceholders_substitution :
    (∀ (conf : List (Str × Str)) (v : Value) (ks : List Str) (k : Str)
        (mf : List (Str × Value)),
      getPathV v ks = some (.map mf) →
      mapGet mf k = some (.str placeholderSentinel) →
      ((∀ r, strMapGet conf k = some r →
        getPathV (replaceTemplatePlaceholders placeholderSentinel conf v) (ks ++ [k])
          = some (.str r)) ∧
       (strMapGet conf k = none →
        getPathV (replaceTemplatePlaceholders placeholderSentinel conf v) (ks ++ [k])
          = some (.str placeholderSentinel)))) ∧
    getPathV
      (replaceTemplatePlaceholders placeholderSentinel
        [("commonName".data, "fulcio.example.com".data)]
        (Value.map [("spec".data, Value.map [("fulcio".data, Value.map
          [("certificate".data, Value.map
            [("commonName".data, Value.str placeholderSentinel)])])])]))
      ["spec".data, "fulcio".data, "certificate".data, "commonName".data]
    = some (Value.str "fulcio.example.com".data) := by
  constructor
  · intro conf v ks k mf hks hk
    have hmapped := getPathV_replaceTP placeholderSentinel conf ks v mf hks
    have hsnoc := getPathV_snoc ks
      (replaceTemplatePlaceholders placeholderSentinel conf v) k
      (replaceTPEntries placeholderSentinel conf mf) hmapped
    rw [hsnoc]
    rw [mapGet_replaceTPEntries, hk]
    constructor
    · intro r hr
      simp [tpEntryResult, hr]
    · intro hr
      simp [tpEntryResult, hr]
  · rfl

/-- Witness for `replaceTemplatePlaceholders_substitution` on the claim's
own document, exercising both the found and the not-found overlay cases. -/
theorem replaceTemplatePlaceholders_substitution_witness :
    (∀ r, strMapGet [("commonName".data, "fulcio.example.com".data)] "commonName".data
        = some r →
      getPathV (replaceTemplatePlaceholders placeholderSentinel
          [("commonName".data, "fulcio.example.com".data)]
          (Value.map [("certificate".data, Value.map
            [("commonName".data, Value.str placeholderSentinel)])]))
        (["certificate".data] ++ ["commonName".data])
        = some (.str r)) ∧
    (strMapGet [("commonName".data, "fulcio.example.com".data)] "commonName".data = none →
      getPathV (replaceTemplatePlaceholders placeholderSentinel
          [("commonName".data, "fulcio.example.com".data)]
          (Value.map [("certificate".data, Value.map
            [("commonName".data, Value.str placeholderSentinel)])]))
        (["certificate".data] ++ ["commonName".data])
        = some (.str placeholderSentinel)) :=
  replaceTemplatePlaceholders_substitution.1
    [("commonName".data, "fulcio.example.com".data)]
    (Value.map [("certificate".data, Value.map
      [("commonName".data, Value.str placeholderSentinel)])])
    ["certificate".data] "commonName".data
    [("commonName".data, Value.str placeholderSentinel)]
    rfl rfl

end ConfigSpec

namespace ConfigSpec

mutual

/-- A value with no rewritable entry is left unchanged. -/
theorem noHitV_id (ph : Str) (conf : List (Str × Str)) :
    ∀ v : Value, noHitV ph conf v = true → replaceTemplatePlaceholders ph conf v = v
  | .map m, h => by
    have h2 := noHitEntries_id ph conf m (by simpa [noHitV] using h)
    simp [replaceTemplatePlaceholders, h2]
  | .seq l, h => by
    have h2 := noHitList_id ph conf l (by simpa [noHitV] using h)
    simp [replaceTemplatePlaceholders, h2]
  | .str _, _ => rfl
  | .intV _, _ => rfl
  | .boolV _, _ => rfl
  | .null, _ => rfl

/-- Entry list with no rewritable entry is left unchanged. -/
theorem noHitEntries_id (ph : Str) (conf : List (Str × Str)) :
    ∀ m : List (Str × Value), noHitEntries ph conf m = true → replaceTPEntries ph conf m = m
  | [], _ => rfl
  | (k, .str s) :: rest, h => by
    have hparts : (if s = ph then (strMapGet conf k).isNone else true) = true ∧
        noHitEntries ph conf rest = true := by
      simpa [noHitEntries, Bool.and_eq_true] using h
    have hrest := noHitEntries_id ph conf rest hparts.2
    by_cases hs : s = ph
    · have hnone : strMapGet conf k = none := by
        have h1 := hparts.1
        rw [if_pos hs] at h1
        simpa [Option.isNone_iff_eq_none] using h1
      simp [replaceTPEntries, hs, hnone, hrest]
    · simp [replaceTPEntries, hs, hrest]
  | (k, .map mm) :: rest, h => by
    have hparts : noHitV ph conf (Value.map mm) = true ∧
        noHitEntries ph conf rest = true := by
      simpa [noHitEntries, Bool.and_eq_true] using h
    simp [replaceTPEntries, noHitV_id ph conf (Value.map mm) hparts.1,
      noHitEntries_id ph conf rest hparts.2]
  | (k, .seq ll) :: rest, h => by
    have hparts : noHitV ph conf (Value.seq ll) = true ∧
        noHitEntries ph conf rest = true := by
      simpa [noHitEntries, Bool.and_eq_true] using h
    simp [replaceTPEntries, noHitV_id ph conf (Value.seq ll) hparts.1,
      noHitEntries_id ph conf rest hparts.2]
  | (k, .intV n) :: rest, h => by
    have hrest : noHitEntries ph conf rest = true := by
      simpa [noHitEntries, Bool.and_eq_true, noHitV] using h
    simp [replaceTPEntries, replaceTemplatePlaceholders,
      noHitEntries_id ph conf rest hrest]
  | (k, .boolV b) :: rest, h => by
    have hrest : noHitEntries ph conf rest = true := by
      simpa [noHitEntries, Bool.and_eq_true, noHitV] using h
    simp [replaceTPEntries, replaceTemplatePlaceholders,
      noHitEntries_id ph conf rest hrest]
  | (k, .null) :: rest, h => by
    have hrest : noHitEntries ph conf rest = true := by
      simpa [noHitEntries, Bool.and_eq_true, noHitV] using h
    simp [replaceTPEntries, replaceTemplatePlaceholders,
      noHitEntries_id ph conf rest hrest]

/-- Element list with no rewritable entry is left unchanged. -/
theorem noHitList_id (ph : Str) (conf : List (Str × Str)) :
    ∀ l : List Value, noHitList ph conf l = true → replaceTPList ph conf l = l
  | [], _ => rfl
  | v :: rest, h => by
    have hparts : noHitV ph conf v = true ∧ noHitList ph conf rest = true := by
      simpa [noHitList, Bool.and_eq_true] using h
    simp [replaceTPList, noHitV_id ph conf v hparts.1, noHitList_id ph conf rest hparts.2]

end

/-- Substitution never renames keys. -/
theorem replaceTPEntries_keys (ph : Str) (conf : List (Str × Str)) :
    ∀ m : List (Str × Value),
      (replaceTPEntries ph conf m).map Prod.fst = m.map Prod.fst
  | [] => rfl
  | (k, v) :: rest => by
    have ih := replaceTPEntries_keys ph conf rest
    cases v with
    | str s =>
      by_cases hs : s = ph
      · cases hr : strMapGet conf k <;> simp [replaceTPEntries, hs, hr, ih]
      · simp [replaceTPEntries, hs, ih]
    | map mm => simp [replaceTPEntries, ih]
    | seq l => simp [replaceTPEntries, ih]
    | intV n => simp [replaceTPEntries, ih]
    | boolV b => simp [replaceTPEntries, ih]
    | null => simp [replaceTPEntries, ih]

/-- Substitution over a sequence is element-wise. -/
theorem replaceTPList_map (ph : Str) (conf : List (Str × Str)) :
    ∀ l : List Value,
      replaceTPList ph conf l = l.map (replaceTemplatePlaceholders ph conf)
  | [] => rfl
  | v :: rest => by simp [replaceTPList, replaceTPList_map ph conf rest]

end ConfigSpec

namespace ConfigSpec

/-- C10 (frame): the structural phase changes at most the values of mapping
entries holding exactly the sentinel string under a key present in the
overlay.  Conjuncts: (1) keys are never renamed, added or removed; (2)
sequence lengths are preserved; (3) sequences are processed element-wise
and (4) a bare string element — the sentinel included — is never replaced,
so a sentinel occurring directly inside a sequence stays; (5) a value
containing no sentinel-valued entry under an overlay key is returned
entirely unchanged; (6) a sentinel-valued entry whose key has no overlay
entry keeps the sentinel; and, in any document, whatever substitutions
happen at sibling entries: (7) an entry holding a non-sentinel string keeps
it verbatim, (8) an entry holding a non-string value receives exactly the
recursive processing of that value, and (9) an entry that is not a
sentinel-hit itself and whose value contains no sentinel-hit anywhere is
preserved exactly. -/
theorem replaceTemplatePlaceholders_frame :
    (∀ (ph : Str) (conf : List (Str × Str)) (m : List (Str × Value)),
      (replaceTPEntries ph conf m).map Prod.fst = m.map Prod.fst) ∧
    (∀ (ph : Str) (conf : List (Str × Str)) (l : List Value),
      (replaceTPList ph conf l).length = l.length) ∧
    (∀ (ph : Str) (conf : List (Str × Str)) (l : List Value),
      replaceTPList ph conf l = l.map (replaceTemplatePlaceholders ph conf)) ∧
    (∀ (ph : Str) (conf : List (Str × Str)) (s : Str),
      replaceTemplatePlaceholders ph conf (.str s) = .str s) ∧
    (∀ (ph : Str) (conf : List (Str × Str)) (v : Value),
      noHitV ph conf v = true → replaceTemplatePlaceholders ph conf v = v) ∧
    (∀ (ph : Str) (conf : List (Str × Str)) (m : List (Str × Value)) (k : Str),
      mapGet m k = some (.str ph) → strMapGet conf k = none →
      mapGet (replaceTPEntries ph conf m) k = some (.str ph)) ∧
    (∀ (ph : Str) (conf : List (Str × Str)) (m : List (Str × Value)) (k : Str) (s : Str),
      mapGet m k = some (.str s) → ¬ s = ph →
      mapGet (replaceTPEntries ph conf m) k = some (.str s)) ∧
    (∀ (ph : Str) (conf : List (Str × Str)) (m : List (Str × Value)) (k : Str) (v : Value),
      mapGet m k = some v → (∀ s : Str, ¬ v = .str s) →
      mapGet (replaceTPEntries ph conf m) k
        = some (replaceTemplatePlaceholders ph conf v)) ∧
    (∀ (ph : Str) (conf : List (Str × Str)) (m : List (Str × Value)) (k : Str) (v : Value),
      mapGet m k = some v → noHitV ph conf v = true →
      (v = .str ph → strMapGet conf k = none) →
      mapGet (replaceTPEntries ph conf m) k = some v) := by
  refine ⟨replaceTPEntries_keys, ?_, replaceTPList_map, fun _ _ _ => rfl, noHitV_id,
    ?_, ?_, ?_, ?_⟩
  · intro ph conf l
    rw [replaceTPList_map ph conf l, List.length_map]
  · intro ph conf m k hget hconf
    rw [mapGet_replaceTPEntries, hget]
    simp [tpEntryResult, hconf]
  · intro ph conf m k s hget hs
    rw [mapGet_replaceTPEntries, hget]
    simp [tpEntryResult, hs]
  · intro ph conf m k v hget hnostr
    rw [mapGet_replaceTPEntries, hget]
    cases v with
    | str s => exact absurd rfl (hnostr s)
    | map mm => rfl
    | seq l => rfl
    | intV n => rfl
    | boolV b => rfl
    | null => rfl
  · intro ph conf m k v hget hnohit hsent
    rw [mapGet_replaceTPEntries, hget]
    cases v with
    | str s =>
      by_cases hs : s = ph
      · subst hs
        simp [tpEntryResult, hsent rfl]
      · simp [tpEntryResult, hs]
    | map mm => simpa [tpEntryResult] using noHitV_id ph conf (Value.map mm) hnohit
    | seq l => simpa [tpEntryResult] using noHitV_id ph conf (Value.seq l) hnohit
    | intV n => rfl
    | boolV b => rfl
    | null => rfl

/-- Witness for `replaceTemplatePlaceholders_frame`: an untouched document
is returned unchanged; a sentinel entry without overlay keeps the sentinel;
and in a document where the sibling entry `a` IS substituted, the
non-sentinel string at `b` and the nested mapping at `c` are preserved. -/
theorem replaceTemplatePlaceholders_frame_witness :
    replaceTemplatePlaceholders placeholderSentinel [("a".data, "b".data)]
      (Value.map [("x".data, Value.str "y".data),
        ("s".data, Value.seq [Value.str placeholderSentinel])])
      = Value.map [("x".data, Value.str "y".data),
        ("s".data, Value.seq [Value.str placeholderSentinel])] ∧
    mapGet (replaceTPEntries placeholderSentinel []
        [("k".data, Value.str placeholderSentinel)]) "k".data
      = some (.str placeholderSentinel) ∧
    mapGet (replaceTPEntries placeholderSentinel [("a".data, "repl".data)]
        [("a".data, Value.str placeholderSentinel), ("b".data, Value.str "x".data),
          ("c".data, Value.map [("z".data, Value.str "w".data)])]) "b".data
      = some (.str "x".data) ∧
    mapGet (replaceTPEntries placeholderSentinel [("a".data, "repl".data)]
        [("a".data, Value.str placeholderSentinel), ("b".data, Value.str "x".data),
          ("c".data, Value.map [("z".data, Value.str "w".data)])]) "c".data
      = some (replaceTemplatePlaceholders placeholderSentinel [("a".data, "repl".data)]
          (Value.map [("z".data, Value.str "w".data)])) ∧
    mapGet (replaceTPEntries placeholderSentinel [("a".data, "repl".data)]
        [("a".data, Value.str placeholderSentinel), ("b".data, Value.str "x".data),
          ("c".data, Value.map [("z".data, Value.str "w".data)])]) "c".data
      = some (Value.map [("z".data, Value.str "w".data)]) :=
  ⟨replaceTemplatePlaceholders_frame.2.2.2.2.1 placeholderSentinel
      [("a".data, "b".data)]
      (Value.map [("x".data, Value.str "y".data),
        ("s".data, Value.seq [Value.str placeholderSentinel])])
      (by decide),
   replaceTemplatePlaceholders_frame.2.2.2.2.2.1 placeholderSentinel []
      [("k".data, Value.str placeholderSentinel)] "k".data rfl rfl,
   replaceTemplatePlaceholders_frame.2.2.2.2.2.2.1 placeholderSentinel
      [("a".data, "repl".data)]
      [("a".data, Value.str placeholderSentinel), ("b".data, Value.str "x".data),
        ("c".data, Value.map [("z".data, Value.str "w".data)])]
      "b".data "x".data rfl (by decide),
   replaceTemplatePlaceholders_frame.2.2.2.2.2.2.2.1 placeholderSentinel
      [("a".data, "repl".data)]
      [("a".data, Value.str placeholderSentinel), ("b".data, Value.str "x".data),
        ("c".data, Value.map [("z".data, Value.str "w".data)])]
      "c".data (Value.map [("z".data, Value.str "w".data)]) rfl
      (fun s h => Value.noConfusion h),
   replaceTemplatePlaceholders_frame.2.2.2.2.2.2.2.2 placeholderSentinel
      [("a".data, "repl".data)]
      [("a".data, Value.str placeholderSentinel), ("b".data, Value.str "x".data),
        ("c".data, Value.map [("z".data, Value.str "w".data)])]
      "c".data (Value.map [("z".data, Value.str "w".data)]) rfl (by decide)
      (fun h => Value.noConfusion h)⟩

end ConfigSpec

namespace ConfigSpec

/-- The scanner copies a character that cannot start a match. -/
theorem scanRT_cons_other (ctx : RuntimeContext) (s : Str) (c : Char) (h : c ≠ '{') :
    scanRT ctx (c :: s) = c :: scanRT ctx s := by
  rw [scanRT.eq_def]
  split
  · rename_i rest heq
    injection heq with h1 _
    exact absurd h1 h
  · rename_i c2 rest hcon heq
    injection heq with h1 h2
    rw [h1, h2]
  · rename_i heq
    exact absurd heq (by simp)

/-- The scanner copies a whole brace-free prefix. -/
theorem scanRT_nobrace_append (ctx : RuntimeContext) :
    ∀ a : Str, (∀ c ∈ a, c ≠ '{') → ∀ s, scanRT ctx (a ++ s) = a ++ scanRT ctx s
  | [], _, s => by simp
  | c :: a, h, s => by
    have hc : c ≠ '{' := h c (by simp)
    have ih := scanRT_nobrace_append ctx a (fun c2 hm => h c2 (by simp [hm])) s
    simp only [List.cons_append]
    rw [scanRT_cons_other ctx (a ++ s) c hc, ih]

/-- A maximal run of word characters followed by a non-word character is
what `takeWhile` keeps. -/
theorem takeWhile_all_append (p : Char → Bool) :
    ∀ w : Str, (∀ c ∈ w, p c = true) → ∀ (c0 : Char), p c0 = false → ∀ rest : Str,
      (w ++ c0 :: rest).takeWhile p = w
  | [], _, c0, hc, rest => by simp [List.takeWhile, hc]
  | c :: w, h, c0, hc, rest => by
    have hcw : p c = true := h c (by simp)
    have ih := takeWhile_all_append p w (fun x hx => h x (by simp [hx])) c0 hc rest
    simp [List.takeWhile, hcw, ih]

/-- The scanner replaces one complete placeholder token and resumes after
it, without rescanning the replacement. -/
theorem scanRT_token (ctx : RuntimeContext) (w : Str) (hw : w ≠ [])
    (hword : ∀ c ∈ w, isWordChar c = true) (rest : Str) :
    scanRT ctx ('{' :: '{' :: (w ++ '}' :: '}' :: rest))
      = rtSubst ctx w ++ scanRT ctx rest := by
  have ht : List.takeWhile isWordChar (w ++ '}' :: '}' :: rest) = w :=
    takeWhile_all_append isWordChar w hword '}' (by decide) ('}' :: rest)
  have hd : List.drop w.length (w ++ '}' :: '}' :: rest) = '}' :: '}' :: rest :=
    List.drop_left w ('}' :: '}' :: rest)
  rw [scanRT.eq_def]
  simp only [ht, hd, if_neg hw]
  split
  · rename_i rest2 heq
    rw [ht, hd] at heq
    injection heq with _ heq2
    injection heq2 with _ heq3
    rw [heq3]
  · rename_i hcon
    exact absurd (hcon rest (by rw [ht, hd])) (fun f => f)

end ConfigSpec

namespace ConfigSpec

/-- C6: for every template text, given by an arbitrary decomposition into
placeholder tokens and brace-free text between them, the raw-text phase
rewrites exactly the token occurrences and nothing else (second conjunct);
by the third to fifth conjuncts the per-token replacement is the context's
namespace for `NAMESPACE`, its instance name for `INSTANCE_NAME`, and the
token itself — unchanged, with no error — for every other identifier.  The
first conjunct: the overlay map receives exactly the same per-value
substitution before the structural phase. -/
theorem runtimePlaceholders_substitution :
    (∀ (ctx : RuntimeContext) (values : List (Str × Str)),
      replaceRuntimePlaceholdersInMap values (some ctx)
        = values.map (fun kv => (kv.1, replaceRuntimePlaceholdersInString kv.2 (some ctx)))) ∧
    (∀ (ctx : RuntimeContext) (chunks : List RTChunk),
      (∀ ch ∈ chunks, chunkOK ch = true) →
      replaceRuntimePlaceholdersInString (renderChunks chunks) (some ctx)
        = substChunks ctx chunks) ∧
    (∀ ctx : RuntimeContext, rtSubst ctx "NAMESPACE".data = ctx.Namespace) ∧
    (∀ ctx : RuntimeContext, rtSubst ctx "INSTANCE_NAME".data = ctx.InstanceName) ∧
    (∀ (ctx : RuntimeContext) (w : Str), ¬ w = "NAMESPACE".data →
      ¬ w = "INSTANCE_NAME".data →
      rtSubst ctx w = '{' :: '{' :: (w ++ ['}', '}'])) := by
  refine ⟨fun _ _ => rfl, ?_, fun _ => rfl, fun _ => rfl, ?_⟩
  · intro ctx chunks
    induction chunks with
    | nil =>
      intro _
      show scanRT ctx [] = []
      rw [scanRT.eq_def]
    | cons ch rest ih =>
      intro h
      have hch := h ch (by simp)
      have hrest : scanRT ctx (renderChunks rest) = substChunks ctx rest :=
        ih (fun x hx => h x (List.mem_cons_of_mem ch hx))
      cases ch with
      | text a =>
        have ha : ∀ c ∈ a, c ≠ '{' := by
          simpa [chunkOK, List.all_eq_true] using hch
        show scanRT ctx (a ++ renderChunks rest) = a ++ substChunks ctx rest
        rw [scanRT_nobrace_append ctx a ha, hrest]
      | token w =>
        have hw : w ≠ [] ∧ ∀ c ∈ w, isWordChar c = true := by
          have h2 := hch
          simp only [chunkOK, Bool.and_eq_true, Bool.not_eq_true',
            List.isEmpty_iff, List.all_eq_true] at h2
          refine ⟨?_, h2.2⟩
          intro e
          rw [e] at h2
          simp at h2
        show scanRT ctx ('{' :: '{' :: (w ++ '}' :: '}' :: renderChunks rest))
          = rtSubst ctx w ++ substChunks ctx rest
        rw [scanRT_token ctx w hw.1 hw.2, hrest]
  · intro ctx w h1 h2
    simp [rtSubst, h1, h2]

/-- Witness for `runtimePlaceholders_substitution` on a decomposition with
one INSTANCE_NAME token, two NAMESPACE tokens and one unknown token. -/
theorem runtimePlaceholders_substitution_witness :
    replaceRuntimePlaceholdersInString
      (renderChunks [RTChunk.text "name: ".data, RTChunk.token "INSTANCE_NAME".data,
        RTChunk.text "\nns: ".data, RTChunk.token "NAMESPACE".data,
        RTChunk.text ".".data, RTChunk.token "NAMESPACE".data,
        RTChunk.text "\nx: ".data, RTChunk.token "UNKNOWN_1".data,
        RTChunk.text "\n".data])
      (some { Namespace := "my-ns".data, InstanceName := "my-inst".data })
      = substChunks { Namespace := "my-ns".data, InstanceName := "my-inst".data }
          [RTChunk.text "name: ".data, RTChunk.token "INSTANCE_NAME".data,
            RTChunk.text "\nns: ".data, RTChunk.token "NAMESPACE".data,
            RTChunk.text ".".data, RTChunk.token "NAMESPACE".data,
            RTChunk.text "\nx: ".data, RTChunk.token "UNKNOWN_1".data,
            RTChunk.text "\n".data] ∧
    rtSubst { Namespace := "my-ns".data, InstanceName := "my-inst".data }
        "UNKNOWN_1".data
      = '{' :: '{' :: ("UNKNOWN_1".data ++ ['}', '}']) :=
  ⟨runtimePlaceholders_substitution.2.1
      { Namespace := "my-ns".data, InstanceName := "my-inst".data }
      [RTChunk.text "name: ".data, RTChunk.token "INSTANCE_NAME".data,
        RTChunk.text "\nns: ".data, RTChunk.token "NAMESPACE".data,
        RTChunk.text ".".data, RTChunk.token "NAMESPACE".data,
        RTChunk.text "\nx: ".data, RTChunk.token "UNKNOWN_1".data,
        RTChunk.text "\n".data]
      (by decide),
   runtimePlaceholders_substitution.2.2.2.2
      { Namespace := "my-ns".data, InstanceName := "my-inst".data }
      "UNKNOWN_1".data (by decide) (by decide)⟩

end ConfigSpec

namespace ConfigSpec

/-- Go `strings.Split` on a separator-free string. -/
theorem splitOnChar_no_sep (sep : Char) : ∀ s : Str, sep ∉ s → splitOnChar sep s = [s]
  | [], _ => rfl
  | c :: rest, h => by
    have hc : ¬ c = sep := fun e => h (by simp [e])
    have hr := splitOnChar_no_sep sep rest (fun hm => h (List.mem_cons_of_mem c hm))
    simp [splitOnChar, hc, hr]

/-- Go `strings.Split` peels one separator-free piece at a time. -/
theorem splitOnChar_append_sep (sep : Char) (t : Str) : ∀ l : Str, sep ∉ l →
    splitOnChar sep (l ++ sep :: t) = l :: splitOnChar sep t
  | [], _ => by simp [splitOnChar]
  | c :: l, h => by
    have hc : ¬ c = sep := fun e => h (by simp [e])
    have hr := splitOnChar_append_sep sep t l (fun hm => h (List.mem_cons_of_mem c hm))
    simp only [List.cons_append, splitOnChar, if_neg hc, List.append_eq, hr]

/-- Splitting the line join on newlines recovers the newline-free lines. -/
theorem splitOnChar_joinLines : ∀ ls : List Str, ls ≠ [] →
    (∀ l ∈ ls, '\n' ∉ l) → splitOnChar '\n' (joinLines ls) = ls
  | [], h, _ => absurd rfl h
  | [l], _, hn => by
    simp only [joinLines]
    exact splitOnChar_no_sep '\n' l (hn l (by simp))
  | l :: l2 :: ls, _, hn => by
    have ih := splitOnChar_joinLines (l2 :: ls) (by simp)
      (fun x hx => hn x (List.mem_cons_of_mem l hx))
    show splitOnChar '\n' (l ++ '\n' :: joinLines (l2 :: ls)) = _
    rw [splitOnChar_append_sep '\n' (joinLines (l2 :: ls)) l (hn l (by simp)), ih]

/-- One non-separator, non-final line moves into the current document. -/
theorem splitLoop_cons_nonsep (l : Str) (rest : List Str) (acc : List Str)
    (hl : ¬ goTrimSpace l = "---".data) (hrest : ¬ rest = []) :
    splitLoop (l :: rest) acc = splitLoop rest (acc ++ [l]) := by
  simp only [splitLoop, if_neg hl, if_neg hrest]

/-- A separator line flushes the current document. -/
theorem splitLoop_cons_sep (l : Str) (rest : List Str) (acc : List Str)
    (hl : goTrimSpace l = "---".data) :
    splitLoop (l :: rest) acc
      = (if acc ≠ [] ∧ goTrimSpace (joinLines acc) ≠ [] then [joinLines acc] else [])
        ++ splitLoop rest [] := by
  simp only [splitLoop, if_pos hl]

/-- The split loop carries separator-free lines into the current document. -/
theorem splitLoop_skip : ∀ (ls : List Str), (∀ l ∈ ls, goTrimSpace l ≠ "---".data) →
    ∀ (ys : List Str) (acc : List Str), ys ≠ [] →
      splitLoop (ls ++ ys) acc = splitLoop ys (acc ++ ls)
  | [], _, ys, acc, _ => by simp
  | l :: ls, h, ys, acc, hys => by
    have hl : ¬ goTrimSpace l = "---".data := h l (by simp)
    have ih := splitLoop_skip ls (fun x hx => h x (List.mem_cons_of_mem l hx)) ys
      (acc ++ [l]) hys
    have hne : ¬ (ls ++ ys = []) := by
      intro e
      rcases List.append_eq_nil.mp e with ⟨_, e2⟩
      exact hys e2
    rw [List.cons_append, splitLoop_cons_nonsep l (ls ++ ys) acc hl hne, ih]
    simp [List.append_assoc]

/-- The split loop on a trailing separator-free document flushes it at the
last line. -/
theorem splitLoop_last : ∀ (ls : List Str), ls ≠ [] →
    (∀ l ∈ ls, goTrimSpace l ≠ "---".data) → ∀ acc : List Str,
      splitLoop ls acc
        = if goTrimSpace (joinLines (acc ++ ls)) ≠ [] then [joinLines (acc ++ ls)] else []
  | [], h, _, _ => absurd rfl h
  | [l], _, hsep, acc => by
    have hl : ¬ goTrimSpace l = "---".data := hsep l (by simp)
    simp only [splitLoop, if_neg hl]
    simp
  | l :: l2 :: ls, _, hsep, acc => by
    have hl : ¬ goTrimSpace l = "---".data := hsep l (by simp)
    have ih := splitLoop_last (l2 :: ls) (by simp)
      (fun x hx => hsep x (List.mem_cons_of_mem l hx)) (acc ++ [l])
    rw [splitLoop_cons_nonsep l (l2 :: ls) acc hl (by simp), ih]
    simp [List.append_assoc]

end ConfigSpec

namespace ConfigSpec

/-- Splitting a text of two separator-joined documents yields exactly the
two documents. -/
theorem splitYAMLDocuments_two (ls1 ls2 : List Str) (h1 : ls1 ≠ []) (h2 : ls2 ≠ [])
    (hn : ∀ l ∈ ls1 ++ ls2, '\n' ∉ l ∧ goTrimSpace l ≠ "---".data)
    (ht1 : goTrimSpace (joinLines ls1) ≠ []) (ht2 : goTrimSpace (joinLines ls2) ≠ []) :
    splitYAMLDocuments (joinLines (ls1 ++ "---".data :: ls2))
      = [joinLines ls1, joinLines ls2] := by
  have hsplit : splitOnChar '\n' (joinLines (ls1 ++ "---".data :: ls2))
      = ls1 ++ "---".data :: ls2 := by
    apply splitOnChar_joinLines
    · intro e
      rcases List.append_eq_nil.mp e with ⟨e1, _⟩
      exact h1 e1
    · intro l hl
      rcases List.mem_append.mp hl with hm | hm
      · exact (hn l (List.mem_append.mpr (Or.inl hm))).1
      · rcases List.mem_cons.mp hm with rfl | hm2
        · decide
        · exact (hn l (List.mem_append.mpr (Or.inr hm2))).1
  have hloop : splitLoop (ls1 ++ "---".data :: ls2) []
      = [joinLines ls1, joinLines ls2] := by
    rw [splitLoop_skip ls1 (fun l hl => (hn l (List.mem_append.mpr (Or.inl hl))).2)
        ("---".data :: ls2) [] (by simp)]
    rw [List.nil_append]
    rw [splitLoop_cons_sep "---".data ls2 ls1 (by decide)]
    rw [if_pos ⟨h1, ht1⟩]
    rw [splitLoop_last ls2 h2
        (fun l hl => (hn l (List.mem_append.mpr (Or.inr hl))).2) []]
    rw [List.nil_append, if_pos ht2]
    rfl
  simp only [splitYAMLDocuments, hsplit, hloop]
  simp

end ConfigSpec

namespace ConfigSpec

/-- C8: a template whose (placeholder-resolved) text splits as two YAML
documents around a line trimming to the separator produces exactly two
processed output documents (first conjunct, at the level of the line
splitter; second conjunct, through the whole processing core), and each
output is independently parseable whenever the codec can re-parse its own
serialization. -/
theorem processTemplate_two_documents :
    (∀ ls1 ls2 : List Str, ls1 ≠ [] → ls2 ≠ [] →
      (∀ l ∈ ls1 ++ ls2, '\n' ∉ l ∧ goTrimSpace l ≠ "---".data) →
      goTrimSpace (joinLines ls1) ≠ [] → goTrimSpace (joinLines ls2) ≠ [] →
      splitYAMLDocuments (joinLines (ls1 ++ "---".data :: ls2))
        = [joinLines ls1, joinLines ls2]) ∧
    (∀ (codec : YamlCodec) (t : Str) (conf : List (Str × Str))
        (ctx : Option RuntimeContext) (d1 d2 : Str) (m1 m2 : GoMap),
      (∀ m, (codec.parse (codec.marshal m)).isSome = true) →
      splitYAMLDocuments (replaceRuntimePlaceholdersInString t ctx) = [d1, d2] →
      goTrimSpace d1 ≠ [] → goTrimSpace d2 ≠ [] →
      codec.parse d1 = some m1 → codec.parse d2 = some m2 →
      ∃ out1 out2, processTemplateCore codec t conf ctx = .ok [out1, out2] ∧
        (codec.parse out1).isSome = true ∧ (codec.parse out2).isSome = true) := by
  refine ⟨splitYAMLDocuments_two, ?_⟩
  intro codec t conf ctx d1 d2 m1 m2 hcodec hsplit htrim1 htrim2 hp1 hp2
  refine ⟨codec.marshal (replaceTPEntries placeholderSentinel
      (replaceRuntimePlaceholdersInMap conf ctx) m1),
    codec.marshal (replaceTPEntries placeholderSentinel
      (replaceRuntimePlaceholdersInMap conf ctx) m2), ?_, hcodec _, hcodec _⟩
  simp only [processTemplateCore, hsplit]
  simp only [processDocs, if_neg htrim1, if_neg htrim2, hp1, hp2]
  rfl

end ConfigSpec

namespace ConfigSpec

/-- Witness for `processTemplate_two_documents` on a concrete two-document
template and a trivial codec. -/
theorem processTemplate_two_documents_witness :
    splitYAMLDocuments (joinLines (["a".data] ++ "---".data :: ["b".data]))
      = [joinLines ["a".data], joinLines ["b".data]] ∧
    (∃ out1 out2,
      processTemplateCore { parse := fun _ => some [], marshal := fun _ => [] }
          "a\n---\nb".data [] none = .ok [out1, out2] ∧
      ((YamlCodec.parse { parse := fun _ => some [], marshal := fun _ => [] } out1).isSome
        = true) ∧
      ((YamlCodec.parse { parse := fun _ => some [], marshal := fun _ => [] } out2).isSome
        = true)) :=
  ⟨processTemplate_two_documents.1 ["a".data] ["b".data] (by decide) (by decide)
      (by decide) (by decide) (by decide),
   processTemplate_two_documents.2
      { parse := fun _ => some [], marshal := fun _ => [] }
      "a\n---\nb".data [] none "a".data "b".data [] []
      (fun _ => rfl) (by decide) (by decide) (by decide) rfl rfl⟩

end ConfigSpec

namespace ConfigSpec

/-- A skippable conf line is consumed without effect. -/
theorem loadConfLines_skip (l : Str) (rest : List Str) (i : Nat) (acc : List (Str × Str))
    (h : isSkippableLine l = true) :
    loadConfLines (l :: rest) i acc = loadConfLines rest (i + 1) acc := by
  have h2 : (decide (goTrimSpace l = []) || hasLeadingHash (goTrimSpace l)) = true := h
  simp only [loadConfLines]
  rw [if_pos h2]

/-- A well-formed `key=value` conf line inserts its trimmed pair. -/
theorem loadConfLines_pair (l : Str) (rest : List Str) (i : Nat) (acc : List (Str × Str))
    (k0 v0 : Str) (hskip : isSkippableLine l = false)
    (hsplit : goSplitN2 '=' (goTrimSpace l) = [k0, v0])
    (hkey : ¬ goTrimSpace k0 = []) :
    loadConfLines (l :: rest) i acc
      = loadConfLines rest (i + 1) (strMapSet acc (goTrimSpace k0) (goTrimSpace v0)) := by
  have h2 : (decide (goTrimSpace l = []) || hasLeadingHash (goTrimSpace l)) = false := hskip
  simp only [loadConfLines]
  rw [if_neg (by simp [h2]), hsplit]
  simp only [if_neg hkey]

/-- A conf line without `=` is a hard error naming its 1-based number. -/
theorem loadConfLines_noeq (l : Str) (rest : List Str) (i : Nat) (acc : List (Str × Str))
    (hskip : isSkippableLine l = false) (hnoeq : '=' ∉ goTrimSpace l) :
    loadConfLines (l :: rest) i acc
      = .error (.invalidFormat (i + 1) (goTrimSpace l)) := by
  have h2 : (decide (goTrimSpace l = []) || hasLeadingHash (goTrimSpace l)) = false := hskip
  simp only [loadConfLines]
  rw [if_neg (by simp [h2]), goSplitN2_no_sep '=' (goTrimSpace l) hnoeq]

/-- A conf line whose trimmed key is empty is a hard error naming its
1-based number. -/
theorem loadConfLines_emptyKey (l : Str) (rest : List Str) (i : Nat)
    (acc : List (Str × Str)) (k0 v0 : Str) (hskip : isSkippableLine l = false)
    (hsplit : goSplitN2 '=' (goTrimSpace l) = [k0, v0])
    (hkey : goTrimSpace k0 = []) :
    loadConfLines (l :: rest) i acc = .error (.emptyKey (i + 1)) := by
  have h2 : (decide (goTrimSpace l = []) || hasLeadingHash (goTrimSpace l)) = false := hskip
  simp only [loadConfLines]
  rw [if_neg (by simp [h2]), hsplit]
  simp only [if_pos hkey]

end ConfigSpec

namespace ConfigSpec

/-- A parseable conf line advances the loop, only extending the map. -/
theorem loadConfLines_good_step (l : Str) (rest : List Str) (i : Nat)
    (acc : List (Str × Str)) (h : isGoodLine l = true) :
    ∃ acc2, loadConfLines (l :: rest) i acc = loadConfLines rest (i + 1) acc2 := by
  by_cases hskip : isSkippableLine l = true
  · exact ⟨acc, loadConfLines_skip l rest i acc hskip⟩
  · have hskip2 : isSkippableLine l = false := by simpa using hskip
    have hmatch : (match goSplitN2 '=' (goTrimSpace l) with
        | [k0, _] => !(goTrimSpace k0).isEmpty
        | _ => false) = true := by
      simpa [isGoodLine, hskip2] using h
    cases hsp : goSplitN2 '=' (goTrimSpace l) with
    | nil => rw [hsp] at hmatch; simp at hmatch
    | cons k0 tail =>
      cases tail with
      | nil => rw [hsp] at hmatch; simp at hmatch
      | cons v0 tail2 =>
        cases tail2 with
        | nil =>
          rw [hsp] at hmatch
          simp only [List.isEmpty_iff, Bool.not_eq_true'] at hmatch
          have hkey : ¬ goTrimSpace k0 = [] := by
            simpa [List.isEmpty_iff] using hmatch
          exact ⟨strMapSet acc (goTrimSpace k0) (goTrimSpace v0),
            loadConfLines_pair l rest i acc k0 v0 hskip2 hsp hkey⟩
        | cons x tail3 => rw [hsp] at hmatch; simp at hmatch

/-- C9: the conf loader skips blanks and comments, collects the trimmed
`key=value` pairs of every other line in order (first conjunct; fourth
conjunct states it for the whole file), and fails on the first offending
line: `invalid format` naming the 1-based line number when the line has no
`=` (second conjunct), `empty key` naming the line number when the key trims
to nothing (third conjunct). -/
theorem loadConfFile_characterization :
    (∀ (ls : List Str) (i : Nat) (acc : List (Str × Str)),
      (∀ l ∈ ls, isGoodLine l = true) →
      loadConfLines ls i acc = .ok (insertAllConf acc (confLinePairs ls))) ∧
    (∀ (pre : List Str) (l : Str) (suf : List Str) (i : Nat) (acc : List (Str × Str)),
      (∀ x ∈ pre, isGoodLine x = true) →
      isSkippableLine l = false → '=' ∉ goTrimSpace l →
      loadConfLines (pre ++ l :: suf) i acc
        = .error (.invalidFormat (i + pre.length + 1) (goTrimSpace l))) ∧
    (∀ (pre : List Str) (l : Str) (suf : List Str) (i : Nat) (acc : List (Str × Str))
        (k0 v0 : Str),
      (∀ x ∈ pre, isGoodLine x = true) →
      isSkippableLine l = false →
      goSplitN2 '=' (goTrimSpace l) = [k0, v0] → goTrimSpace k0 = [] →
      loadConfLines (pre ++ l :: suf) i acc
        = .error (.emptyKey (i + pre.length + 1))) ∧
    (∀ data : Str,
      (∀ l ∈ splitOnChar '\n' data, isGoodLine l = true) →
      LoadConfFile data
        = .ok (insertAllConf [] (confLinePairs (splitOnChar '\n' data)))) := by
  have main : ∀ (ls : List Str) (i : Nat) (acc : List (Str × Str)),
      (∀ l ∈ ls, isGoodLine l = true) →
      loadConfLines ls i acc = .ok (insertAllConf acc (confLinePairs ls)) := by
    intro ls
    induction ls with
    | nil => intro i acc _; rfl
    | cons l rest ih =>
      intro i acc h
      have hgood : isGoodLine l = true := h l (by simp)
      have hrest : ∀ x ∈ rest, isGoodLine x = true :=
        fun x hx => h x (List.mem_cons_of_mem l hx)
      by_cases hskip : isSkippableLine l = true
      · rw [loadConfLines_skip l rest i acc hskip, ih (i + 1) acc hrest]
        simp only [confLinePairs, if_pos hskip]
      · have hskip2 : isSkippableLine l = false := by simpa using hskip
        have hmatch : (match goSplitN2 '=' (goTrimSpace l) with
            | [k0, _] => !(goTrimSpace k0).isEmpty
            | _ => false) = true := by
          simpa [isGoodLine, hskip2] using hgood
        cases hsp : goSplitN2 '=' (goTrimSpace l) with
        | nil => rw [hsp] at hmatch; simp at hmatch
        | cons k0 tail =>
          cases tail with
          | nil => rw [hsp] at hmatch; simp at hmatch
          | cons v0 tail2 =>
            cases tail2 with
            | nil =>
              rw [hsp] at hmatch
              have hkey : ¬ goTrimSpace k0 = [] := by
                simpa [List.isEmpty_iff] using hmatch
              rw [loadConfLines_pair l rest i acc k0 v0 hskip2 hsp hkey]
              rw [ih (i + 1) (strMapSet acc (goTrimSpace k0) (goTrimSpace v0)) hrest]
              simp only [confLinePairs, if_neg hskip, hsp]
              rfl
            | cons x tail3 => rw [hsp] at hmatch; simp at hmatch
  have noeq : ∀ (pre : List Str) (l : Str) (suf : List Str) (i : Nat)
      (acc : List (Str × Str)),
      (∀ x ∈ pre, isGoodLine x = true) →
      isSkippableLine l = false → '=' ∉ goTrimSpace l →
      loadConfLines (pre ++ l :: suf) i acc
        = .error (.invalidFormat (i + pre.length + 1) (goTrimSpace l)) := by
    intro pre
    induction pre with
    | nil =>
      intro l suf i acc _ hskip hno
      simpa using loadConfLines_noeq l suf i acc hskip hno
    | cons p pre ih =>
      intro l suf i acc h hskip hno
      obtain ⟨acc2, hstep⟩ := loadConfLines_good_step p (pre ++ l :: suf) i acc
        (h p (by simp))
      rw [List.cons_append, hstep,
        ih l suf (i + 1) acc2 (fun x hx => h x (List.mem_cons_of_mem p hx)) hskip hno]
      congr 2
      · simp
        omega
  have ekey : ∀ (pre : List Str) (l : Str) (suf : List Str) (i : Nat)
      (acc : List (Str × Str)) (k0 v0 : Str),
      (∀ x ∈ pre, isGoodLine x = true) →
      isSkippableLine l = false →
      goSplitN2 '=' (goTrimSpace l) = [k0, v0] → goTrimSpace k0 = [] →
      loadConfLines (pre ++ l :: suf) i acc
        = .error (.emptyKey (i + pre.length + 1)) := by
    intro pre
    induction pre with
    | nil =>
      intro l suf i acc k0 v0 _ hskip hsp hkey
      simpa using loadConfLines_emptyKey l suf i acc k0 v0 hskip hsp hkey
    | cons p pre ih =>
      intro l suf i acc k0 v0 h hskip hsp hkey
      obtain ⟨acc2, hstep⟩ := loadConfLines_good_step p (pre ++ l :: suf) i acc
        (h p (by simp))
      rw [List.cons_append, hstep,
        ih l suf (i + 1) acc2 k0 v0 (fun x hx => h x (List.mem_cons_of_mem p hx))
          hskip hsp hkey]
      congr 2
      simp
      omega
  exact ⟨main, noeq, ekey, fun data h => main (splitOnChar '\n' data) 0 [] h⟩

end ConfigSpec

namespace ConfigSpec

/-- Witness for `loadConfFile_characterization`: a file of comments, blanks
and pairs loads, a separator-free line fails at its line number, and an
empty key fails at its line number. -/
theorem loadConfFile_characterization_witness :
    LoadConfFile "# note\n\nIssuer=https://x\nIssuer = y\n".data
      = .ok (insertAllConf [] (confLinePairs
          (splitOnChar '\n' "# note\n\nIssuer=https://x\nIssuer = y\n".data))) ∧
    loadConfLines (["a=1".data] ++ "no-separator".data :: []) 0 []
      = .error (.invalidFormat (0 + ["a=1".data].length + 1)
          (goTrimSpace "no-separator".data)) ∧
    loadConfLines ([] ++ "=v".data :: []) 0 []
      = .error (.emptyKey (0 + ([] : List Str).length + 1)) :=
  ⟨loadConfFile_characterization.2.2.2 "# note\n\nIssuer=https://x\nIssuer = y\n".data
      (by decide),
   loadConfFile_characterization.2.1 ["a=1".data] "no-separator".data [] 0 []
      (by decide) (by decide) (by decide),
   loadConfFile_characterization.2.2.1 [] "=v".data [] 0 [] [] "v".data
      (by decide) (by decide) (by decide) (by decide)⟩

end ConfigSpec
